import Mathlib

/-!
Shallow embedding of the confidence-dashboard aggregation engine.

Two implementations exist in the repository:
* the React/TypeScript one (`App.filteredData` in `App.tsx`, and the pure
  helpers in `utils/dataProcessing.ts`);
* the non-framework one (`class ConfidenceVisualizer` in the embedded
  dashboard script).

JS objects keyed by ISO date strings are modelled as insertion-ordered
association lists `List (String × DailyData)`; JS numbers are modelled as `ℚ`
(every quantity the claims touch is produced by integer sums and divisions),
except where division by zero / `Math.max` of an empty spread can occur, where
the JS special values are modelled explicitly by `JsNum`.
-/

/-- Model of `confidence_type`: closed two-value union from `types.ts`. -/
inductive ConfidenceType where
  | personal
  | professional
deriving DecidableEq, Repr

/-- Model of `Category`: closed eight-value union from `types.ts`. -/
inductive Category where
  | career_development
  | personal_growth
  | professional_presentation
  | technical_skills
  | social_interactions
  | self_image
  | physical_wellness
  | creative_work
deriving DecidableEq, Repr

/-- Model of `ConfidenceEntry` from `types.ts`.  `power_level` is a JS number expected
(but not enforced) to be an integer in `[1, 10]`; it is modelled as `ℕ`. -/
structure ConfidenceEntry where
  text : String
  category : Category
  confidence_type : ConfidenceType
  power_level : ℕ
deriving DecidableEq, Repr

/-- Model of `DailyData` from `types.ts`: the record of one day, with the two derived
(advisory) fields stored alongside the entries. -/
structure DailyData where
  entries : List ConfidenceEntry
  daily_confidence_average : ℚ
  dominant_confidence_area : ConfidenceType
deriving DecidableEq, Repr

/-- Model of `ConfidenceData` from `types.ts`: a JS object mapping ISO date keys to
day records, modelled as an insertion-ordered association list. -/
abbrev ConfidenceData := List (String × DailyData)

/-- All entries of the collection flattened in order:
`Object.values(data).flatMap(day => day.entries)`. -/
def allEntriesOf (data : ConfidenceData) : List ConfidenceEntry :=
  data.flatMap fun p => p.2.entries

/-- Sum of the `power_level`s of a list of entries, as `ℚ`:
`entries.reduce((sum, e) => sum + e.power_level, 0)`. -/
def powerSum (entries : List ConfidenceEntry) : ℚ :=
  (entries.map fun e => (e.power_level : ℚ)).sum

/-- The arithmetic mean `powerSum / length` (the expression both filter paths
use to recompute `daily_confidence_average`; they only evaluate it on
non-empty lists, so the `ℚ`-convention `x / 0 = 0` is never exercised). -/
def meanPower (entries : List ConfidenceEntry) : ℚ :=
  powerSum entries / (entries.length : ℚ)

/-- React tie-break (`App.tsx`):
`personalCount > filteredEntries.length / 2` selects `personal`, otherwise
`professional`
(JS `/` is exact on these values, so the comparison is over `ℚ`). -/
def reactDominant (entries : List ConfidenceEntry) : ConfidenceType :=
  let personalCount :=
    (entries.filter fun e => e.confidence_type == ConfidenceType.personal).length
  if ((entries.length : ℚ) / 2 < (personalCount : ℚ)) then
    ConfidenceType.personal
  else
    ConfidenceType.professional

/-- One step of building the `counts` object in
`ConfidenceVisualizer.getDominantType`:
`counts[entry.confidence_type] = (counts[entry.confidence_type] || 0) + 1`.
JS object keys keep first-insertion order, modelled by an association list. -/
def bumpCount : List (ConfidenceType × ℕ) → ConfidenceType → List (ConfidenceType × ℕ)
  | [], t => [(t, 1)]
  | (t', c) :: rest, t =>
      if t' = t then (t', c + 1) :: rest else (t', c) :: bumpCount rest t

/-- The `counts` object of `getDominantType` after the `forEach` loop:
keys in first-occurrence order, values the total occurrence counts. -/
def countsOf (entries : List ConfidenceEntry) : List (ConfidenceType × ℕ) :=
  entries.foldl (fun m e => bumpCount m e.confidence_type) []

/-- One insertion step of a stable descending sort by a `ℚ` key, matching
`Array.prototype.sort` with comparator `(a, b) => key(b) - key(a)`
(ES2019 sort is stable: among equal keys first-inserted stays first). -/
def insertByDesc (key : α → ℚ) (x : α) : List α → List α
  | [] => [x]
  | y :: ys => if key y < key x then x :: y :: ys else y :: insertByDesc key x ys

/-- Stable descending sort by a `ℚ` key (model of JS
`sort((a, b) => key(b) - key(a))`). -/
def jsSortByDesc (key : α → ℚ) (l : List α) : List α :=
  l.foldl (fun acc x => insertByDesc key x acc) []

/-- Model of `ConfidenceVisualizer.getDominantType`: sort the `(type, count)` pairs by
count descending and take the first key; the `personal` literal after `||` is the
fallback when there are no pairs at all (empty entry list). -/
def getDominantType (entries : List ConfidenceEntry) : ConfidenceType :=
  match jsSortByDesc (fun p => (p.2 : ℚ)) (countsOf entries) with
  | [] => ConfidenceType.personal
  | (t, _) :: _ => t

/-- Shared per-day shape of the two filter code paths (the loop body of `App.filteredData`
and the loop body of `ConfidenceVisualizer.applyFilters`): keep only the
entries satisfying the predicate, drop the date when none remain, otherwise
rebuild the day record with recomputed average and dominant type (`dom` is the
dominant-type computation of the path). -/
def filterCollection (p : ConfidenceEntry → Bool)
    (dom : List ConfidenceEntry → ConfidenceType)
    (data : ConfidenceData) : ConfidenceData :=
  data.filterMap fun q =>
    let filteredEntries := q.2.entries.filter p
    if 0 < filteredEntries.length then
      some (q.1,
        { entries := filteredEntries
          daily_confidence_average := meanPower filteredEntries
          dominant_confidence_area := dom filteredEntries })
    else
      none

/-- The predicate of `App.filteredData`:
`(!selectedCategory || entry.category === selectedCategory) &&
 (!selectedType || entry.confidence_type === selectedType)`
(`null` selections modelled as `none`). -/
def entryMatches (selectedCategory : Option Category)
    (selectedType : Option ConfidenceType) (e : ConfidenceEntry) : Bool :=
  (match selectedCategory with
   | none => true
   | some c => e.category == c) &&
  (match selectedType with
   | none => true
   | some t => e.confidence_type == t)

/-- Model of `App.filteredData` (React): with no active constraint it returns the
source object itself; otherwise it filters day by day, dropping emptied days
and recomputing the two derived fields (tie-break `reactDominant`). -/
def filteredData (selectedCategory : Option Category)
    (selectedType : Option ConfidenceType)
    (confidenceData : ConfidenceData) : ConfidenceData :=
  if selectedCategory = none ∧ selectedType = none then
    confidenceData
  else
    filterCollection (entryMatches selectedCategory selectedType)
      reactDominant confidenceData

/-- The predicate of `ConfidenceVisualizer.applyFilters`: reject when the type
filter is set and differs, when the category filter is set and differs, or
when `entry.power_level < powerFilter` (the `all` option modelled as `none`; the power
slider always parses to a number, modelled as `ℕ`). -/
def visualizerPred (typeFilter : Option ConfidenceType)
    (categoryFilter : Option Category) (powerFilter : ℕ)
    (e : ConfidenceEntry) : Bool :=
  if (match typeFilter with
      | some t => e.confidence_type != t
      | none => false) then false
  else if (match categoryFilter with
           | some c => e.category != c
           | none => false) then false
  else if e.power_level < powerFilter then false
  else true

/-- The collection `ConfidenceVisualizer.applyFilters` stores into
`this.filteredData`, as a function of the predicate and of `this.data`. -/
def applyFiltersData (p : ConfidenceEntry → Bool) (data : ConfidenceData) :
    ConfidenceData :=
  filterCollection p getDominantType data

/-- Mutable fields of `ConfidenceVisualizer` the aggregation claims touch:
the immutable source `this.data` and the derived view `this.filteredData`. -/
structure VisualizerState where
  data : ConfidenceData
  filteredData : ConfidenceData
deriving Repr

/-- Model of `ConfidenceVisualizer.applyFilters` as a state transformer: it rebuilds
`this.filteredData` from `this.data` and touches nothing else. -/
def applyFilters (typeFilter : Option ConfidenceType)
    (categoryFilter : Option Category) (powerFilter : ℕ)
    (s : VisualizerState) : VisualizerState :=
  { data := s.data
    filteredData :=
      applyFiltersData (visualizerPred typeFilter categoryFilter powerFilter)
        s.data }

/-- JS number with the special values the statistics code can produce
(`0/0 = NaN`, `Math.max()` of an empty spread `= -Infinity`, …). -/
inductive JsNum where
  | finite (q : ℚ)
  | nan
  | inf
  | negInf
deriving DecidableEq, Repr

/-- JS division of two finite numbers: `0/0` is `NaN`, `±a/0` is `±Infinity`,
otherwise exact. -/
def jsDiv (a b : ℚ) : JsNum :=
  if b = 0 then
    if a = 0 then JsNum.nan else if 0 < a then JsNum.inf else JsNum.negInf
  else
    JsNum.finite (a / b)

/-- Multiplication by the positive literal `100` lifted to `JsNum`
(`NaN * 100 = NaN`, `±Infinity * 100 = ±Infinity`). -/
def jsMul100 : JsNum → JsNum
  | JsNum.finite q => JsNum.finite (q * 100)
  | JsNum.nan => JsNum.nan
  | JsNum.inf => JsNum.inf
  | JsNum.negInf => JsNum.negInf

/-- Model of `Math.max(...l)`: `-Infinity` on the empty spread, else the maximum. -/
def jsMaxList : List ℚ → JsNum
  | [] => JsNum.negInf
  | x :: xs => JsNum.finite (xs.foldl max x)

/-- Model of `Math.min(...l)`: `Infinity` on the empty spread, else the minimum. -/
def jsMinList : List ℚ → JsNum
  | [] => JsNum.inf
  | x :: xs => JsNum.finite (xs.foldl min x)

/-- Result record of `getOverallStats` in `utils/dataProcessing.ts`. -/
structure OverallStats where
  totalDays : ℕ
  totalEntries : ℕ
  avgConfidence : JsNum
  highestConfidence : JsNum
  lowestConfidence : JsNum
  personalPercentage : JsNum
  professionalPercentage : JsNum
deriving DecidableEq, Repr

/-- Model of `getOverallStats` (React `utils/dataProcessing.ts`): flattens all entries
and computes the seven statistics with plain JS arithmetic — no emptiness
guard anywhere, so the divisions are JS divisions and min/max are spreads. -/
def getOverallStats (data : ConfidenceData) : OverallStats :=
  let allEntries := allEntriesOf data
  let allPowerLevels := allEntries.map fun e => (e.power_level : ℚ)
  let personalEntries :=
    allEntries.filter fun e => e.confidence_type == ConfidenceType.personal
  let professionalEntries :=
    allEntries.filter fun e => e.confidence_type == ConfidenceType.professional
  { totalDays := data.length
    totalEntries := allEntries.length
    avgConfidence := jsDiv allPowerLevels.sum (allPowerLevels.length : ℚ)
    highestConfidence := jsMaxList allPowerLevels
    lowestConfidence := jsMinList allPowerLevels
    personalPercentage :=
      jsMul100 (jsDiv (personalEntries.length : ℚ) (allEntries.length : ℚ))
    professionalPercentage :=
      jsMul100 (jsDiv (professionalEntries.length : ℚ) (allEntries.length : ℚ)) }

/-- Result record of `ConfidenceVisualizer.calculateStats`. -/
structure VisualizerStats where
  avgConfidence : ℚ
  totalEntries : ℕ
  peakDay : String
  peakScore : ℚ
deriving DecidableEq, Repr

/-- Loop accumulator of `calculateStats`
(`totalPower`, `totalEntries`, `peakDay`, `peakScore`). -/
structure StatsAcc where
  totalPower : ℚ
  totalEntries : ℕ
  peakDay : String
  peakScore : ℚ
deriving DecidableEq, Repr

/-- One iteration of the `calculateStats` loop over a `[date, dayData]` pair:
accumulate power and entry count, then update the peak when the stored
average strictly exceeds the running peak. -/
def statsStep (acc : StatsAcc) (dq : String × DailyData) : StatsAcc :=
  let acc1 : StatsAcc :=
    { acc with
        totalPower := acc.totalPower + powerSum dq.2.entries
        totalEntries := acc.totalEntries + dq.2.entries.length }
  if acc1.peakScore < dq.2.daily_confidence_average then
    { acc1 with peakDay := dq.1, peakScore := dq.2.daily_confidence_average }
  else
    acc1

/-- Model of `ConfidenceVisualizer.calculateStats`, as a function of the collection it
reads (`this.filteredData`): note the explicit `totalEntries > 0` guard on the
average, in contrast with the React `getOverallStats`. -/
def calculateStats (filtered : ConfidenceData) : VisualizerStats :=
  let acc := filtered.foldl statsStep ⟨0, 0, "", 0⟩
  { avgConfidence :=
      if 0 < acc.totalEntries then acc.totalPower / (acc.totalEntries : ℚ) else 0
    totalEntries := acc.totalEntries
    peakDay := acc.peakDay
    peakScore := acc.peakScore }

/-- Model of `calculateStats` as the visualizer runs it: it reads `this.filteredData`. -/
def visualizerStats (s : VisualizerState) : VisualizerStats :=
  calculateStats s.filteredData

/-- Insertion step of `Object.keys(..).sort()` (default lexicographic string
comparison; date keys are unique so stability is moot). -/
def insertKeyAsc (s : String) : List String → List String
  | [] => [s]
  | y :: ys => if s ≤ y then s :: y :: ys else y :: insertKeyAsc s ys

/-- Model of `Object.keys(data).sort()`: the date keys in ascending lexicographic
order (chronological, since they are ISO `YYYY-MM-DD` strings). -/
def sortedKeys (data : ConfidenceData) : List String :=
  (data.map Prod.fst).foldr insertKeyAsc []

/-- Model of `dates.slice(-k)`: for `k = 0` JS `slice(-0)` is `slice(0)`, the whole
array; for `k ≥ 1` it is the last `k` elements (all of them when `k ≥ len`). -/
def jsSliceNeg (k : ℕ) (l : List α) : List α :=
  if k = 0 then l else l.drop (l.length - k)

/-- Model of `ConfidenceVisualizer.getAverageForDates`: mean `power_level` over all
entries of the given dates looked up in `this.data`, `0` when there are none. -/
def getAverageForDates (data : ConfidenceData) (dates : List String) : ℚ :=
  let acc := dates.foldl
    (fun (acc : ℚ × ℕ) d =>
      match data.lookup d with
      | some day => (acc.1 + powerSum day.entries, acc.2 + day.entries.length)
      | none => acc)
    (0, 0)
  if 0 < acc.2 then acc.1 / (acc.2 : ℚ) else 0

/-- Model of `ConfidenceVisualizer.calculateGrowthTrend`, as a function of the
collection it reads (`this.data`).  Note `slice(0, ⌊n/3⌋)` for the early
block and `slice(-⌊n/3⌋)` for the late block. -/
def calculateGrowthTrendData (data : ConfidenceData) : ℚ :=
  let dates := sortedKeys data
  if dates.length < 2 then 0
  else
    let firstMonth := dates.take (dates.length / 3)
    let lastMonth := jsSliceNeg (dates.length / 3) dates
    let firstAvg := getAverageForDates data firstMonth
    let lastAvg := getAverageForDates data lastMonth
    if firstAvg = 0 then 0 else (lastAvg - firstAvg) / firstAvg * 100

/-- Model of `calculateGrowthTrend` as the visualizer runs it: it reads `this.data`,
never `this.filteredData`. -/
def visualizerGrowthTrend (s : VisualizerState) : ℚ :=
  calculateGrowthTrendData s.data

/-- Modelled from the spec: the growth-trend contract as §4 words it — split
the chronologically sorted date sequence into an early third (first `⌊n/3⌋`
dates) and a late third (last `⌊n/3⌋` dates), take the mean power level over
all entries within each third, return `(late - early) / early * 100`, and `0`
when there are fewer than 2 dates or the early mean is `0`. -/
def specGrowthTrend (data : ConfidenceData) : ℚ :=
  let dates := sortedKeys data
  if dates.length < 2 then 0
  else
    let k := dates.length / 3
    let earlyMean := getAverageForDates data (dates.take k)
    let lateMean := getAverageForDates data (dates.drop (dates.length - k))
    if earlyMean = 0 then 0 else (lateMean - earlyMean) / earlyMean * 100

/-- Model of the `CategoryStats` record from `types.ts`. -/
structure CategoryStats where
  category : Category
  avgPowerLevel : ℚ
  entryCount : ℕ
  percentage : ℚ
deriving DecidableEq, Repr

/-- One step of filling `categoryMap` in `calculateCategoryStats`:
`categoryMap.set(entry.category, {total: current.total + entry.power_level,
count: current.count + 1})`.  A JS `Map` iterates in key-insertion order,
modelled by an association list `Category ↦ (total, count)` updated in place. -/
def catStep : List (Category × (ℕ × ℕ)) → ConfidenceEntry → List (Category × (ℕ × ℕ))
  | [], e => [(e.category, (e.power_level, 1))]
  | (c, v) :: rest, e =>
      if c = e.category then (c, (v.1 + e.power_level, v.2 + 1)) :: rest
      else (c, v) :: catStep rest e

/-- The `categoryMap` after the collection loop of `calculateCategoryStats`. -/
def categoryMapOf (entries : List ConfidenceEntry) : List (Category × (ℕ × ℕ)) :=
  entries.foldl catStep []

/-- Model of `calculateCategoryStats` (React `utils/dataProcessing.ts`): one pass over
all entries accumulating `totalEntries` and the per-category `(total, count)`
map, then one `CategoryStats` per category present, sorted by mean power level
descending (`sort((a, b) => b.avgPowerLevel - a.avgPowerLevel)`). -/
def calculateCategoryStats (data : ConfidenceData) : List CategoryStats :=
  let allEntries := allEntriesOf data
  let totalEntries := allEntries.length
  let stats := (categoryMapOf allEntries).map fun cv =>
    { category := cv.1
      avgPowerLevel := (cv.2.1 : ℚ) / (cv.2.2 : ℚ)
      entryCount := cv.2.2
      percentage := ((cv.2.2 : ℚ) / (totalEntries : ℚ)) * 100 : CategoryStats }
  jsSortByDesc (fun s => s.avgPowerLevel) stats

/-- Increment slot `i` of a bucket list (`distribution[i]++` for an index that
is inside the array). -/
def incrAt : List ℕ → ℕ → List ℕ
  | [], _ => []
  | c :: cs, 0 => (c + 1) :: cs
  | c :: cs, n + 1 => c :: incrAt cs n

/-- One step of the `getPowerLevelDistribution` loop:
`distribution[entry.power_level - 1]++` on the ten-slot array.  A
`power_level` outside `[1, 10]` makes the JS write land outside the ten
buckets (a sparse slot or an array extension holding `NaN`) — undefined
behavior per the spec; the model leaves the buckets unchanged there, and the
theorems assume in-range levels. -/
def distStep (d : List ℕ) (e : ConfidenceEntry) : List ℕ :=
  if 1 ≤ e.power_level ∧ e.power_level ≤ 10 then incrAt d (e.power_level - 1)
  else d

/-- Model of `getPowerLevelDistribution` (React `utils/dataProcessing.ts`): fold all
entries over `Array(10).fill(0)`, then tag each slot with its level
(`{level: index + 1, count}`), modelled as the pair `(level, count)`. -/
def getPowerLevelDistribution (data : ConfidenceData) : List (ℕ × ℕ) :=
  let distribution := (allEntriesOf data).foldl distStep (List.replicate 10 0)
  distribution.enum.map fun p => (p.1 + 1, p.2)

/-! ### Helper lemmas -/

/-- Characterization of membership in a filtered collection: every output pair
comes from an input pair whose filtered entry list is non-empty, and carries
the rebuilt day record. -/
lemma filterCollection_mem {p : ConfidenceEntry → Bool}
    {dom : List ConfidenceEntry → ConfidenceType} {data : ConfidenceData}
    {x : String × DailyData} (hx : x ∈ filterCollection p dom data) :
    ∃ q ∈ data, 0 < (q.2.entries.filter p).length ∧
      x = (q.1,
        { entries := q.2.entries.filter p
          daily_confidence_average := meanPower (q.2.entries.filter p)
          dominant_confidence_area := dom (q.2.entries.filter p) }) := by
  simp only [filterCollection, List.mem_filterMap] at hx
  obtain ⟨q, hq, hfx⟩ := hx
  by_cases h : 0 < (q.2.entries.filter p).length
  · refine ⟨q, hq, h, ?_⟩
    simp only [h, if_pos] at hfx
    exact (Option.some.inj hfx).symm
  · simp [h] at hfx

/-- Filtering twice with the same predicate filters once. -/
lemma filter_self_of_filtered (p : ConfidenceEntry → Bool)
    (l : List ConfidenceEntry) : (l.filter p).filter p = l.filter p :=
  List.filter_eq_self.mpr fun _ ha => List.of_mem_filter ha

/-- C7: the growth-trend operation sorts the date keys, takes the first and
last integer-truncated thirds, averages the power level over all entries in
each, and returns the relative percentage change, with the degenerate cases
(fewer than 2 dates, early mean zero) yielding 0 — the code value coincides
with the spec contract on every collection. -/
theorem growthTrend_matches_spec (data : ConfidenceData) :
    calculateGrowthTrendData data = specGrowthTrend data := by
  unfold calculateGrowthTrendData specGrowthTrend
  by_cases h2 : (sortedKeys data).length < 2
  · simp [h2]
  · simp only [h2, if_false]
    by_cases hk : (sortedKeys data).length / 3 = 0
    · have hempty : getAverageForDates data ((sortedKeys data).take ((sortedKeys data).length / 3)) = 0 := by
        rw [hk]
        rfl
      simp [hempty]
    · have : jsSliceNeg ((sortedKeys data).length / 3) (sortedKeys data) =
          (sortedKeys data).drop ((sortedKeys data).length - (sortedKeys data).length / 3) := by
        unfold jsSliceNeg
        simp [hk]
      rw [this]

/-- C9: the non-framework dashboard computes the growth trend from the
unfiltered source collection: `applyFilters` leaves `this.data` unchanged, so
the trend after any filter equals the trend before it, while the overview
statistics are recomputed from the freshly filtered view. -/
theorem applyFilters_growthTrend_frame (s : VisualizerState)
    (tf : Option ConfidenceType) (cf : Option Category) (pf : ℕ) :
    (applyFilters tf cf pf s).data = s.data ∧
    visualizerGrowthTrend (applyFilters tf cf pf s) = visualizerGrowthTrend s ∧
    visualizerStats (applyFilters tf cf pf s) =
      calculateStats (applyFiltersData (visualizerPred tf cf pf) s.data) := by
  exact ⟨rfl, rfl, rfl⟩

/-- C10: with no active constraint (both selections `null`) the React filter
returns the source collection itself, unchanged. -/
theorem filteredData_identity_no_filters (data : ConfidenceData) :
    filteredData none none data = data := by
  simp [filteredData]

/-- Idempotence of the shared per-day filtering shape: the second pass keeps
every day (its entries already all satisfy the predicate) and rebuilds an
identical record. -/
lemma filterCollection_idem (p : ConfidenceEntry → Bool)
    (dom : List ConfidenceEntry → ConfidenceType) (data : ConfidenceData) :
    filterCollection p dom (filterCollection p dom data) =
      filterCollection p dom data := by
  induction data with
  | nil => rfl
  | cons q rest ih =>
      by_cases h : 0 < (q.2.entries.filter p).length
      · simp only [filterCollection, List.filterMap_cons] at ih ⊢
        simp only [h, if_pos]
        simp only [List.filterMap_cons, filter_self_of_filtered, h, if_pos]
        exact congrArg _ ih
      · simp only [filterCollection, List.filterMap_cons] at ih ⊢
        simp only [h, if_neg, if_false]
        exact ih

/-- C5: both filter code paths are idempotent — refiltering an
already-filtered collection with the same predicate (same selections) returns
an identical collection, entry lists, averages and dominant types included. -/
theorem filter_idempotent (p : ConfidenceEntry → Bool)
    (cat : Option Category) (ty : Option ConfidenceType) (data : ConfidenceData) :
    applyFiltersData p (applyFiltersData p data) = applyFiltersData p data ∧
    filteredData cat ty (filteredData cat ty data) = filteredData cat ty data := by
  constructor
  · exact filterCollection_idem p getDominantType data
  · by_cases h : cat = none ∧ ty = none
    · simp [filteredData, h]
    · simp only [filteredData, h, if_neg, if_false]
      exact filterCollection_idem _ reactDominant data

/-- C2: filtering introduces no new date key and keeps no emptied day.  The
non-framework `applyFilters` satisfies this for every input; the React
`filteredData` additionally needs the data-model invariant that the input has
no empty-entry day, because its no-constraint path returns the source
collection verbatim. -/
theorem filter_keys_and_nonempty (p : ConfidenceEntry → Bool)
    (cat : Option Category) (ty : Option ConfidenceType) (data : ConfidenceData) :
    (∀ x ∈ applyFiltersData p data, (∃ r, (x.1, r) ∈ data) ∧ x.2.entries ≠ []) ∧
    ((∀ q ∈ data, q.2.entries ≠ []) →
      ∀ x ∈ filteredData cat ty data, (∃ r, (x.1, r) ∈ data) ∧ x.2.entries ≠ []) := by
  constructor
  · intro x hx
    obtain ⟨q, hq, hlen, hxeq⟩ := filterCollection_mem hx
    subst hxeq
    refine ⟨⟨q.2, hq⟩, ?_⟩
    simpa using List.length_pos.mp hlen
  · intro hinv x hx
    by_cases h : cat = none ∧ ty = none
    · rw [filteredData, if_pos h] at hx
      exact ⟨⟨x.2, hx⟩, hinv x hx⟩
    · rw [filteredData, if_neg h] at hx
      obtain ⟨q, hq, hlen, hxeq⟩ := filterCollection_mem hx
      subst hxeq
      refine ⟨⟨q.2, hq⟩, ?_⟩
      simpa using List.length_pos.mp hlen

/-! ### Concrete sample values (used by witnesses and counterexamples) -/

/-- A personal power-8 entry. -/
def entryPersonal8 : ConfidenceEntry :=
  ⟨"spoke at a meetup", Category.career_development, ConfidenceType.personal, 8⟩

/-- A professional power-4 entry. -/
def entryProfessional4 : ConfidenceEntry :=
  ⟨"led a design review", Category.personal_growth, ConfidenceType.professional, 4⟩

/-- A consistent one-day collection holding the two sample entries. -/
def exampleDay : DailyData := ⟨[entryPersonal8, entryProfessional4], 6, ConfidenceType.personal⟩

/-- The one-day sample collection. -/
def exampleData : ConfidenceData := [("2025-01-01", exampleDay)]

/-- A day record whose stored average (0) is stale relative to its single
power-8 entry (the loader never validates the advisory derived fields). -/
def staleDay : DailyData :=
  ⟨[⟨"wrote a spec", Category.technical_skills, ConfidenceType.personal, 8⟩], 0,
    ConfidenceType.professional⟩

/-- The one-day collection holding `staleDay`. -/
def staleData : ConfidenceData := [("2025-01-02", staleDay)]

/-- C6 counterexample: with no active constraint the React filter returns the
source record verbatim, so a retained date can keep its stored, stale average
(here 0) instead of the mean of its retained entries (here 8). -/
theorem filter_stale_average_cex :
    ("2025-01-02", staleDay) ∈ filteredData none none staleData ∧
    staleDay.daily_confidence_average ≠ meanPower staleDay.entries := by
  constructor
  · simp [filteredData, staleData]
  · norm_num [staleDay, meanPower, powerSum]

/-- C6 (amended): whenever the filter actually recomputes — always, for the
non-framework `applyFilters`, and whenever at least one constraint is active,
for the React path — each retained date carries exactly the arithmetic mean of
its retained entries; the React no-constraint path instead returns the stored
records verbatim, stale averages included. -/
theorem filter_mean_recomputed (p : ConfidenceEntry → Bool)
    (cat : Option Category) (ty : Option ConfidenceType) (data : ConfidenceData)
    (hactive : ¬(cat = none ∧ ty = none)) :
    (∀ x ∈ applyFiltersData p data,
        x.2.daily_confidence_average = meanPower x.2.entries) ∧
    (∀ x ∈ filteredData cat ty data,
        x.2.daily_confidence_average = meanPower x.2.entries) := by
  constructor
  · intro x hx
    obtain ⟨q, hq, hlen, hxeq⟩ := filterCollection_mem hx
    subst hxeq
    rfl
  · intro x hx
    rw [filteredData, if_neg hactive] at hx
    obtain ⟨q, hq, hlen, hxeq⟩ := filterCollection_mem hx
    subst hxeq
    rfl

/-- C3: on the empty collection the React `getOverallStats` divides zero by
zero — its average and both percentage fields are `NaN`, and the empty
spreads make max `-Infinity` and min `Infinity` — whereas the non-framework
`calculateStats` guards the division and returns the documented zero result. -/
theorem overallStats_empty_eval :
    getOverallStats [] =
      { totalDays := 0
        totalEntries := 0
        avgConfidence := JsNum.nan
        highestConfidence := JsNum.negInf
        lowestConfidence := JsNum.inf
        personalPercentage := JsNum.nan
        professionalPercentage := JsNum.nan } ∧
    calculateStats [] =
      { avgConfidence := 0, totalEntries := 0, peakDay := "", peakScore := 0 } := by
  constructor <;> rfl

/-! ### Dominant-type tie behavior -/

/-- Number of entries of a given confidence type (the count both dominant-type
computations are based on). -/
def countType (t : ConfidenceType) (l : List ConfidenceEntry) : ℕ :=
  (l.filter fun e => e.confidence_type == t).length

/-- The other value of the two-valued confidence type. -/
def otherType : ConfidenceType → ConfidenceType
  | ConfidenceType.personal => ConfidenceType.professional
  | ConfidenceType.professional => ConfidenceType.personal

lemma countType_cons (t : ConfidenceType) (e : ConfidenceEntry)
    (l : List ConfidenceEntry) :
    countType t (e :: l) =
      (if e.confidence_type = t then 1 else 0) + countType t l := by
  by_cases h : e.confidence_type = t <;>
    simp [countType, List.filter_cons, h, Nat.add_comm]

lemma length_eq_countType_add (l : List ConfidenceEntry) :
    l.length = countType ConfidenceType.personal l +
      countType ConfidenceType.professional l := by
  induction l with
  | nil => rfl
  | cons e rest ih =>
      cases he : e.confidence_type <;> simp [countType_cons, he, ih] <;> omega

/-- Folding the `counts`-object updates over a two-key accumulator adds each
occurrence to its key in place, preserving key order. -/
lemma foldl_bump_two (rest : List ConfidenceEntry) :
    ∀ (t t' : ConfidenceType), t ≠ t' → ∀ (c c' : ℕ),
    rest.foldl (fun m e => bumpCount m e.confidence_type) [(t, c), (t', c')] =
      [(t, c + countType t rest), (t', c' + countType t' rest)] := by
  induction rest with
  | nil => intro t t' h c c'; simp [countType]
  | cons e rest ih =>
      intro t t' h c c'
      simp only [List.foldl_cons]
      by_cases he : e.confidence_type = t
      · have he' : e.confidence_type ≠ t' := he ▸ h
        rw [show bumpCount [(t, c), (t', c')] e.confidence_type =
            [(t, c + 1), (t', c')] by simp [bumpCount, he]]
        rw [ih t t' h (c + 1) c']
        have h1 : countType t (e :: rest) = 1 + countType t rest := by
          simp [countType_cons, he]
        have h2 : countType t' (e :: rest) = countType t' rest := by
          simp [countType_cons, he']
        rw [h1, h2, ← Nat.add_assoc]
      · have he2 : e.confidence_type = t' := by
          cases u : e.confidence_type <;> cases t <;> cases t' <;> simp_all
        rw [he2]
        rw [show bumpCount [(t, c), (t', c')] t' = [(t, c), (t', c' + 1)] by
              simp [bumpCount, h]]
        rw [ih t t' h c (c' + 1)]
        have h1 : countType t (e :: rest) = countType t rest := by
          simp [countType_cons, he]
        have h2 : countType t' (e :: rest) = 1 + countType t' rest := by
          simp [countType_cons, he2]
        rw [h1, h2, ← Nat.add_assoc]

/-- Folding the `counts`-object updates over a one-key accumulator: the first
key stays first and accumulates its occurrences; the other type, if present,
is appended second with its own count. -/
lemma foldl_bump_single (rest : List ConfidenceEntry) :
    ∀ (t : ConfidenceType) (c : ℕ),
    rest.foldl (fun m e => bumpCount m e.confidence_type) [(t, c)] =
      (if countType (otherType t) rest = 0 then [(t, c + countType t rest)]
       else [(t, c + countType t rest),
             (otherType t, countType (otherType t) rest)]) := by
  induction rest with
  | nil => intro t c; simp [countType]
  | cons e rest ih =>
      intro t c
      simp only [List.foldl_cons]
      by_cases he : e.confidence_type = t
      · have hne : e.confidence_type ≠ otherType t := by
          cases t <;> simp [otherType, he]
        rw [show bumpCount [(t, c)] e.confidence_type = [(t, c + 1)] by
              simp [bumpCount, he]]
        rw [ih t (c + 1)]
        have h1 : countType t (e :: rest) = 1 + countType t rest := by
          simp [countType_cons, he]
        have h2 : countType (otherType t) (e :: rest) =
            countType (otherType t) rest := by
          simp [countType_cons, hne]
        rw [h1, h2, ← Nat.add_assoc]
      · have he2 : e.confidence_type = otherType t := by
          cases u : e.confidence_type <;> cases t <;> simp_all [otherType]
        have hto : t ≠ otherType t := by cases t <;> simp [otherType]
        rw [he2]
        rw [show bumpCount [(t, c)] (otherType t) = [(t, c), (otherType t, 1)] by
              simp [bumpCount, hto]]
        rw [foldl_bump_two rest t (otherType t) hto c 1]
        have h1 : countType t (e :: rest) = countType t rest := by
          simp [countType_cons, he]
        have h2 : countType (otherType t) (e :: rest) =
            1 + countType (otherType t) rest := by
          simp [countType_cons, he2]
        rw [h1, h2, if_neg (by omega), Nat.add_comm 1 (countType (otherType t) rest)]

/-- On a tie over a non-empty entry list, `getDominantType` returns the
confidence type of the first entry: the stable sort keeps the first-inserted
key in front when the two counts are equal. -/
lemma getDominantType_cons_tie (e : ConfidenceEntry) (rest : List ConfidenceEntry)
    (htie : countType ConfidenceType.personal (e :: rest) =
            countType ConfidenceType.professional (e :: rest)) :
    getDominantType (e :: rest) = e.confidence_type := by
  have hshape :
      countsOf (e :: rest) =
        (if countType (otherType e.confidence_type) rest = 0 then
          [(e.confidence_type, 1 + countType e.confidence_type rest)]
         else
          [(e.confidence_type, 1 + countType e.confidence_type rest),
           (otherType e.confidence_type, countType (otherType e.confidence_type) rest)]) := by
    unfold countsOf
    simp only [List.foldl_cons]
    rw [show bumpCount [] e.confidence_type = [(e.confidence_type, 1)] from rfl]
    exact foldl_bump_single rest e.confidence_type 1
  have htie' : 1 + countType e.confidence_type rest =
      countType (otherType e.confidence_type) rest := by
    cases he : e.confidence_type <;> simp_all [countType_cons, otherType]
  unfold getDominantType
  rw [hshape, if_neg (by omega), ← htie']
  simp [jsSortByDesc, insertByDesc]

/-- C1 counterexample: a tied day whose first retained entry is professional.
`getDominantType` returns `professional`, not the claimed `personal` default,
and therefore agrees with the React path on this tie. -/
theorem dominant_tie_not_personal_cex :
    countType ConfidenceType.personal [entryProfessional4, entryPersonal8] =
      countType ConfidenceType.professional [entryProfessional4, entryPersonal8] ∧
    getDominantType [entryProfessional4, entryPersonal8] =
      ConfidenceType.professional ∧
    reactDominant [entryProfessional4, entryPersonal8] =
      ConfidenceType.professional := by
  refine ⟨by decide, ?_, ?_⟩
  · rw [getDominantType_cons_tie entryProfessional4 [entryPersonal8] (by decide)]
    rfl
  · unfold reactDominant
    rw [if_neg]
    intro hlt
    rw [show (List.filter (fun x => x.confidence_type == ConfidenceType.personal)
        [entryProfessional4, entryPersonal8]).length = 1 from by decide] at hlt
    norm_num [List.length_cons, List.length_nil] at hlt

/-- C1 (amended): on a day with no strict majority the React path always
defaults to `professional`, while `getDominantType` returns the confidence
type occurring first among the retained entries (`personal` is only its
fallback for an empty list); so the two paths disagree on a tie exactly when
the first retained entry is personal. -/
theorem dominant_tie_break_paths (e : ConfidenceEntry)
    (entries : List ConfidenceEntry)
    (htie : countType ConfidenceType.personal (e :: entries) =
            countType ConfidenceType.professional (e :: entries)) :
    reactDominant (e :: entries) = ConfidenceType.professional ∧
    getDominantType (e :: entries) = e.confidence_type ∧
    getDominantType [] = ConfidenceType.personal := by
  refine ⟨?_, getDominantType_cons_tie e entries htie, rfl⟩
  have hlen := length_eq_countType_add (e :: entries)
  unfold reactDominant
  rw [if_neg]
  intro hlt
  have hpc : ((e :: entries).filter fun x =>
      x.confidence_type == ConfidenceType.personal).length =
      countType ConfidenceType.personal (e :: entries) := rfl
  rw [hpc, hlen, ← htie] at hlt
  push_cast at hlt
  linarith

/-- Witness for the amended C1 theorem at a concrete tied day. -/
theorem dominant_tie_break_paths_witness :
    (countType ConfidenceType.personal [entryPersonal8, entryProfessional4] =
      countType ConfidenceType.professional [entryPersonal8, entryProfessional4]) ∧
    (reactDominant [entryPersonal8, entryProfessional4] =
        ConfidenceType.professional ∧
      getDominantType [entryPersonal8, entryProfessional4] =
        entryPersonal8.confidence_type ∧
      getDominantType [] = ConfidenceType.personal) :=
  ⟨by decide, dominant_tie_break_paths entryPersonal8 [entryProfessional4] (by decide)⟩

/-! ### Power-level histogram -/

lemma incrAt_length (d : List ℕ) (i : ℕ) : (incrAt d i).length = d.length := by
  induction d generalizing i with
  | nil => rfl
  | cons c cs ih =>
      cases i with
      | zero => rfl
      | succ n => simp [incrAt, ih]

lemma incrAt_sum (d : List ℕ) (i : ℕ) (h : i < d.length) :
    (incrAt d i).sum = d.sum + 1 := by
  induction d generalizing i with
  | nil => simp at h
  | cons c cs ih =>
      cases i with
      | zero => simp [incrAt]; omega
      | succ n =>
          simp only [incrAt, List.sum_cons]
          rw [ih n (by simpa using h)]
          omega

lemma incrAt_getD (d : List ℕ) (i j : ℕ) (h : i < d.length) :
    (incrAt d i).getD j 0 = d.getD j 0 + (if j = i then 1 else 0) := by
  induction d generalizing i j with
  | nil => simp at h
  | cons c cs ih =>
      cases i with
      | zero =>
          cases j with
          | zero => simp [incrAt]
          | succ k => simp [incrAt]
      | succ n =>
          cases j with
          | zero => simp [incrAt]
          | succ k =>
              simp only [incrAt, List.getD_cons_succ]
              rw [ih n k (by simpa using h)]
              simp

lemma getD_replicate_zero (n i : ℕ) : (List.replicate n (0 : ℕ)).getD i 0 = 0 := by
  induction n generalizing i with
  | zero => rfl
  | succ m ih =>
      cases i with
      | zero => rfl
      | succ k => simp [List.replicate, ih k]

/-- Invariant of the histogram fold: the bucket-list length is preserved, the
bucket total grows by one per entry, and each bucket accumulates exactly the
entries at its level (all power levels assumed in range). -/
lemma foldl_distStep (entries : List ConfidenceEntry) :
    ∀ d : List ℕ, d.length = 10 →
    (∀ e ∈ entries, 1 ≤ e.power_level ∧ e.power_level ≤ 10) →
    (entries.foldl distStep d).length = 10 ∧
    (entries.foldl distStep d).sum = d.sum + entries.length ∧
    (∀ j : ℕ, (entries.foldl distStep d).getD j 0 =
      d.getD j 0 + (entries.filter fun e => e.power_level == j + 1).length) := by
  induction entries with
  | nil => intro d hd _; simp [hd]
  | cons e rest ih =>
      intro d hd hr
      have hre : 1 ≤ e.power_level ∧ e.power_level ≤ 10 := hr e (by simp)
      have hstep : distStep d e = incrAt d (e.power_level - 1) := by
        simp [distStep, hre]
      have hidx : e.power_level - 1 < d.length := by omega
      simp only [List.foldl_cons, hstep]
      obtain ⟨l1, l2, l3⟩ := ih (incrAt d (e.power_level - 1))
        (by rw [incrAt_length]; exact hd)
        (fun x hx => hr x (by simp [hx]))
      refine ⟨l1, ?_, ?_⟩
      · rw [l2, incrAt_sum d _ hidx]
        simp only [List.length_cons]
        omega
      · intro j
        rw [l3 j, incrAt_getD d _ j hidx]
        by_cases hj : e.power_level = j + 1
        · have hj2 : j = e.power_level - 1 := by omega
          have hb : (e.power_level == j + 1) = true := beq_iff_eq.mpr hj
          have hfl : ((e :: rest).filter fun x => x.power_level == j + 1).length =
              1 + ((rest.filter fun x => x.power_level == j + 1)).length := by
            rw [List.filter_cons, hb]
            simp [Nat.add_comm]
          rw [hfl, if_pos hj2]
          omega
        · have hj2 : j ≠ e.power_level - 1 := by omega
          have hb : (e.power_level == j + 1) = false := by
            exact beq_eq_false_iff_ne.mpr hj
          have hfl : ((e :: rest).filter fun x => x.power_level == j + 1) =
              rest.filter fun x => x.power_level == j + 1 := by
            rw [List.filter_cons, hb]
            simp
          rw [hfl, if_neg hj2]
          omega

/-- C4: assuming every entry has `power_level` in `[1, 10]` (the data-model
range; out-of-range values are undefined behavior), the histogram pairs each
level 1..10 with the exact number of entries at that level, and the ten bucket
counts sum to the total entry count. -/
theorem powerLevel_histogram (data : ConfidenceData)
    (hr : ∀ e ∈ allEntriesOf data, 1 ≤ e.power_level ∧ e.power_level ≤ 10) :
    (getPowerLevelDistribution data).map Prod.fst =
      [1, 2, 3, 4, 5, 6, 7, 8, 9, 10] ∧
    (∀ x ∈ getPowerLevelDistribution data,
        x.2 = ((allEntriesOf data).filter fun e => e.power_level == x.1).length) ∧
    ((getPowerLevelDistribution data).map Prod.snd).sum =
      (allEntriesOf data).length := by
  obtain ⟨l1, l2, l3⟩ :=
    foldl_distStep (allEntriesOf data) (List.replicate 10 0) (by simp) hr
  set dist := (allEntriesOf data).foldl distStep (List.replicate 10 0) with hdist
  have hunfold : getPowerLevelDistribution data =
      dist.enum.map fun p => (p.1 + 1, p.2) := rfl
  refine ⟨?_, ?_, ?_⟩
  · rw [hunfold, List.map_map]
    rw [show ((Prod.fst ∘ fun p : ℕ × ℕ => (p.1 + 1, p.2))) =
        ((· + 1) ∘ Prod.fst) from rfl]
    rw [← List.map_map, List.enum_map_fst, l1]
    decide
  · intro x hx
    rw [hunfold, List.mem_map] at hx
    obtain ⟨p, hp, hpx⟩ := hx
    have hget := List.mem_enum_iff_getElem?.mp hp
    have hp2 : dist.getD p.1 0 = p.2 := by
      rw [List.getD_eq_getElem?_getD, hget]
      rfl
    subst hpx
    rw [show ((p.1 + 1, p.2) : ℕ × ℕ).2 = p.2 from rfl,
        show ((p.1 + 1, p.2) : ℕ × ℕ).1 = p.1 + 1 from rfl,
        ← hp2, l3 p.1, getD_replicate_zero]
    omega
  · rw [hunfold, List.map_map]
    rw [show ((Prod.snd ∘ fun p : ℕ × ℕ => (p.1 + 1, p.2))) = Prod.snd from rfl]
    rw [List.enum_map_snd]
    have hsum0 : (List.replicate 10 (0 : ℕ)).sum = 0 := by decide
    rw [l2, hsum0]
    omega

/-- Witness for the C4 histogram theorem at the concrete sample collection. -/
theorem powerLevel_histogram_witness :
    (∀ e ∈ allEntriesOf exampleData, 1 ≤ e.power_level ∧ e.power_level ≤ 10) ∧
    ((getPowerLevelDistribution exampleData).map Prod.fst =
        [1, 2, 3, 4, 5, 6, 7, 8, 9, 10] ∧
      (∀ x ∈ getPowerLevelDistribution exampleData,
          x.2 = ((allEntriesOf exampleData).filter
            fun e => e.power_level == x.1).length) ∧
      ((getPowerLevelDistribution exampleData).map Prod.snd).sum =
        (allEntriesOf exampleData).length) :=
  ⟨by decide, powerLevel_histogram exampleData (by decide)⟩

/-! ### Category statistics -/

lemma insertByDesc_perm (key : α → ℚ) (x : α) (l : List α) :
    (insertByDesc key x l).Perm (x :: l) := by
  induction l with
  | nil => exact List.Perm.refl _
  | cons y ys ih =>
      by_cases h : key y < key x
      · simp [insertByDesc, h]
      · simp only [insertByDesc, h, if_false, ite_false]
        exact (ih.cons y).trans (List.Perm.swap x y ys)

lemma foldl_insertByDesc_perm (key : α → ℚ) (l : List α) :
    ∀ acc : List α,
      (l.foldl (fun a x => insertByDesc key x a) acc).Perm (acc ++ l) := by
  induction l with
  | nil => intro acc; simp
  | cons x xs ih =>
      intro acc
      simp only [List.foldl_cons]
      refine ((ih (insertByDesc key x acc)).trans ?_)
      refine ((insertByDesc_perm key x acc).append_right xs).trans ?_
      exact List.perm_middle.symm

/-- The JS sort permutes its input. -/
lemma jsSortByDesc_perm (key : α → ℚ) (l : List α) :
    (jsSortByDesc key l).Perm l := by
  simpa using foldl_insertByDesc_perm key l []

lemma catStep_snd_sum (m : List (Category × (ℕ × ℕ))) (e : ConfidenceEntry) :
    ((catStep m e).map fun cv => cv.2.2).sum =
      ((m.map fun cv => cv.2.2)).sum + 1 := by
  induction m with
  | nil => simp [catStep]
  | cons cv rest ih =>
      obtain ⟨c, v⟩ := cv
      by_cases h : c = e.category
      · simp only [catStep, h, if_pos, ite_true, List.map_cons, List.sum_cons]
        omega
      · simp only [catStep, h, if_false, ite_false, List.map_cons, List.sum_cons, ih]
        omega

/-- The per-category entry counts in the `categoryMap` sum to the total entry
count. -/
lemma categoryMap_count_sum (entries : List ConfidenceEntry) :
    (((categoryMapOf entries).map fun cv => cv.2.2)).sum = entries.length := by
  suffices h : ∀ m : List (Category × (ℕ × ℕ)),
      (((entries.foldl catStep m).map fun cv => cv.2.2)).sum =
        ((m.map fun cv => cv.2.2)).sum + entries.length by
    simpa using h []
  induction entries with
  | nil => intro m; simp
  | cons e rest ih =>
      intro m
      simp only [List.foldl_cons]
      rw [ih (catStep m e), catStep_snd_sum]
      simp only [List.length_cons]
      omega

lemma sum_map_div_mul (m : List (Category × (ℕ × ℕ))) (N : ℚ) :
    ((m.map fun cv => ((cv.2.2 : ℚ) / N) * 100)).sum =
      (((m.map fun cv => cv.2.2).sum : ℕ) : ℚ) / N * 100 := by
  induction m with
  | nil => simp
  | cons cv rest ih =>
      simp only [List.map_cons, List.sum_cons, ih]
      push_cast
      ring

/-- C8: over any collection with at least one entry, the per-category
percentages produced by `calculateCategoryStats` sum to exactly 100. -/
theorem categoryStats_percentage_sum (data : ConfidenceData)
    (h : allEntriesOf data ≠ []) :
    ((calculateCategoryStats data).map fun s => s.percentage).sum = 100 := by
  have hN : ((allEntriesOf data).length : ℚ) ≠ 0 := by
    simpa using fun hc => h (List.length_eq_zero.mp hc)
  unfold calculateCategoryStats
  rw [List.Perm.sum_eq ((jsSortByDesc_perm _ _).map _)]
  rw [List.map_map]
  rw [show ((fun s : CategoryStats => s.percentage) ∘ fun cv : Category × (ℕ × ℕ) =>
      ({ category := cv.1
         avgPowerLevel := (cv.2.1 : ℚ) / (cv.2.2 : ℚ)
         entryCount := cv.2.2
         percentage := ((cv.2.2 : ℚ) / ((allEntriesOf data).length : ℚ)) * 100 } :
        CategoryStats)) =
      fun cv : Category × (ℕ × ℕ) =>
        ((cv.2.2 : ℚ) / ((allEntriesOf data).length : ℚ)) * 100 from rfl]
  rw [sum_map_div_mul, categoryMap_count_sum]
  field_simp

/-- Witness for the C8 percentage-sum theorem at the concrete sample
collection. -/
theorem categoryStats_percentage_sum_witness :
    allEntriesOf exampleData ≠ [] ∧
    ((calculateCategoryStats exampleData).map fun s => s.percentage).sum = 100 :=
  ⟨by decide, categoryStats_percentage_sum exampleData (by decide)⟩

/-- Witness for the C2 theorem at the concrete sample collection with a
concrete type predicate and an active category selection. -/
theorem filter_keys_and_nonempty_witness :
    (∀ q ∈ exampleData, q.2.entries ≠ []) ∧
    ((∀ x ∈ applyFiltersData
          (fun e => e.confidence_type == ConfidenceType.personal) exampleData,
        (∃ r, (x.1, r) ∈ exampleData) ∧ x.2.entries ≠ []) ∧
      (∀ x ∈ filteredData (some Category.career_development) none exampleData,
        (∃ r, (x.1, r) ∈ exampleData) ∧ x.2.entries ≠ [])) :=
  ⟨by decide,
    (filter_keys_and_nonempty
      (fun e => e.confidence_type == ConfidenceType.personal)
      (some Category.career_development) none exampleData).1,
    (filter_keys_and_nonempty
      (fun e => e.confidence_type == ConfidenceType.personal)
      (some Category.career_development) none exampleData).2 (by decide)⟩

/-- Witness for the amended C6 theorem at the concrete sample collection with
an active category selection. -/
theorem filter_mean_recomputed_witness :
    ¬((some Category.career_development : Option Category) = none ∧
        (none : Option ConfidenceType) = none) ∧
    ((∀ x ∈ applyFiltersData
          (fun e => e.confidence_type == ConfidenceType.personal) exampleData,
        x.2.daily_confidence_average = meanPower x.2.entries) ∧
      (∀ x ∈ filteredData (some Category.career_development) none exampleData,
        x.2.daily_confidence_average = meanPower x.2.entries)) :=
  ⟨by decide, filter_mean_recomputed _ _ _ exampleData (by decide)⟩
